import Mathlib

/-!
Verification development for `facerec_py/facerec/feature.py`.

The feature extractors (PCA, LDA, Fisherfaces, SpatialHistogram) are shallowly
embedded over exact rationals: numpy `float` arrays become `Fin d → ℚ` vectors,
`Matrix (Fin d) (Fin d) ℚ` matrices, or lists of column vectors.  Calls into
numpy's opaque decomposition routines (`np.linalg.svd`, `np.linalg.eig`) are
parameters of the embedded `compute` functions: the claims settled here concern
the surrounding control flow, state handling and algebra, none of which depends
on the numeric content the decompositions return.  Python exceptions are
modelled with `Except PyErr`; a raising `compute` additionally returns the
mutated object state, because Python mutates `self` in place before raising.
-/

/-- Python exceptions surfaced by the embedded code.  `notFitted` models the
`TypeError` numpy raises when an unfitted `None` field is used in arithmetic
(the spec's name for that failure mode); `notImplemented` models
`NotImplementedError` from the `AbstractFeature` stubs; `singularMatrix`
models `numpy.linalg.LinAlgError` raised by `np.linalg.inv`. -/
inductive PyErr where
  | notFitted
  | notImplemented
  | singularMatrix
  deriving DecidableEq

/-- Dot product of two length-`d` vectors (a row of `W.T` against a column). -/
def dotQ {d : ℕ} (u v : Fin d → ℚ) : ℚ := ∑ i, u i * v i

/-- `np.mean(axis=1)` over a list of column vectors.  For an empty column list
the entrywise quotient is `0/0 = 0` in ℚ (numpy would produce NaN there; no
theorem below exercises that case). -/
def colMean {d : ℕ} (cols : List (Fin d → ℚ)) : Fin d → ℚ :=
  fun i => (cols.map (fun cvec => cvec i)).sum / (cols.length : ℚ)

/-- `Modelled from the spec:` `asColumnMatrix` lives in `facerec.util`, which is
absent from the sources; per the spec it stacks the flattened samples as the
columns of a `d×n` matrix and fails on inconsistent shapes.  Samples here are
typed `Fin d → ℚ`, so shapes are consistent by construction and the builder is
the identity on the list of columns. -/
def asColumnMatrix {d : ℕ} (X : List (Fin d → ℚ)) : List (Fin d → ℚ) := X

/-- Stable insertion of one keyed element into a descending-by-key list;
helper for the model of `np.argsort(-vals)` fancy-indexing. -/
def insertDescBy {α : Type} (key : α → ℚ) (a : α) : List α → List α
  | [] => [a]
  | b :: t => if key b < key a then a :: b :: t else b :: insertDescBy key a t

/-- Sort a list into descending key order.  Models
`idx = np.argsort(-vals); vals[idx], vecs[:, idx]`: the eigenpair list is
rearranged so keys descend (numpy's quicksort leaves ties in unspecified
order; the model is stable, and no claim depends on tie order). -/
def sortDescBy {α : Type} (key : α → ℚ) : List α → List α
  | [] => []
  | a :: t => insertDescBy key a (sortDescBy key t)

section PCAdefs

variable {d : ℕ}

/-- Fitted state of a `PCA` instance (`self._num_components`,
`self._total_energy`, `self._mean`, `self._eigenvectors`, `self._eigenvalues`).
Eigenvectors are kept as the list of column vectors; `None` fields of a not yet
fitted instance are `none`. -/
structure PCAState (d : ℕ) where
  num_components : ℤ
  total_energy : ℚ
  mean : Option (Fin d → ℚ)
  eigenvectors : Option (List (Fin d → ℚ))
  eigenvalues : Option (List ℚ)
  deriving DecidableEq

namespace PCA

/-- `PCA.__init__(num_components)`: stores the configuration and leaves every
fitted field `None` (`_total_energy` is initialised to `0`). -/
def initState (num_components : ℤ) : PCAState d :=
  ⟨num_components, 0, none, none, none⟩

/-- `PCA.project(X) = np.dot(self._eigenvectors.T, X - self._mean)` (lines
112–114).  Using an unfitted field raises (`X - None` is a `TypeError`,
`None.T` an `AttributeError`); both are modelled as `notFitted`. -/
def project (st : PCAState d) (x : Fin d → ℚ) : Except PyErr (List ℚ) :=
  match st.mean with
  | none => .error .notFitted
  | some m =>
    match st.eigenvectors with
    | none => .error .notFitted
    | some W => .ok (W.map (fun cvec => dotQ cvec (fun i => x i - m i)))

/-- `PCA.extract(X)` (lines 108–110): reshape (a no-op on the embedded
vectors) and `project`. -/
def extract (st : PCAState d) (x : Fin d → ℚ) : Except PyErr (List ℚ) :=
  project st x

/-- `PCA.compute(X, y)` (lines 56–106).  `svd` stands for the opaque call
`np.linalg.svd(XC, full_matrices=False)`, returning the columns of `U` and the
singular values (the third return, `variances`, is unused by the source).
`y` is converted with `np.asarray` and never used — faithful to the source.
Returns the new object state together with the computed features.  The numpy
call is treated as total (the spec: decompositions run to completion), so the
result is always `.ok`; the `Except` layer records that Python could raise. -/
def compute (svd : List (Fin d → ℚ) → List (Fin d → ℚ) × List ℚ)
    (st : PCAState d) (X : List (Fin d → ℚ)) (_y : List ℤ) :
    PCAState d × Except PyErr (List (List ℚ)) :=
  let XC := asColumnMatrix X
  let n : ℕ := XC.length
  -- lines 78–79: if self._num_components <= 0 or > XC.shape[1] - 1, clamp to n-1
  let nc : ℤ :=
    if st.num_components ≤ 0 ∨ (n : ℤ) - 1 < st.num_components then (n : ℤ) - 1
    else st.num_components
  -- line 82: mean over axis 1
  let mean := colMean XC
  -- line 83: center the columns
  let XCc := XC.map (fun cvec => fun i => cvec i - mean i)
  -- line 86: economy-size SVD (opaque numpy routine)
  let U := (svd XCc).1
  let s := (svd XCc).2
  -- line 89: eigenvalues = s^2 / n
  let evals := s.map (fun sv => sv ^ 2 / (n : ℚ))
  -- line 92: total energy before truncation
  let totalEnergy := evals.sum
  -- lines 94–95: sort eigenpairs by descending eigenvalue
  let pairs := sortDescBy (fun p => p.1) (evals.zip U)
  -- lines 98–99: keep the first num_components (numpy slicing clamps; the
  -- negative-slice corner `[:, :-1]` only arises for empty input, excluded
  -- from every theorem below)
  let evecs' := (pairs.map (fun p => p.2)).take nc.toNat
  let evals' := (pairs.map (fun p => p.1)).take nc.toNat
  let st' : PCAState d := ⟨nc, totalEnergy, some mean, some evecs', some evals'⟩
  -- lines 102–106: features = [project(x) for x in X]
  (st', .ok (X.map (fun x => evecs'.map (fun cvec => dotQ cvec (fun i => x i - mean i)))))

end PCA

end PCAdefs

/-- Executable Laplace-expansion determinant, the singularity test behind the
model of `np.linalg.inv` (numpy raises `LinAlgError` on an exactly singular
input, e.g. an all-zero scatter matrix). -/
def detQ : {d : ℕ} → Matrix (Fin d) (Fin d) ℚ → ℚ
  | 0, _ => 1
  | n + 1, A =>
    ∑ i : Fin (n + 1), (-1 : ℚ) ^ (i : ℕ) * A i 0 * detQ (A.submatrix i.succAbove Fin.succ)

/-- Executable adjugate (cofactor transpose), used to model the value
`np.linalg.inv` returns on a nonsingular input. -/
def adjugateQ : {d : ℕ} → Matrix (Fin d) (Fin d) ℚ → Matrix (Fin d) (Fin d) ℚ
  | 0, A => A
  | _ + 1, A => fun i j =>
    (-1 : ℚ) ^ ((i : ℕ) + (j : ℕ)) * detQ (A.submatrix j.succAbove i.succAbove)

/-- `np.linalg.inv`: raises `LinAlgError` (`singularMatrix`) on a singular
matrix, otherwise returns the inverse `det⁻¹ · adjugate`. -/
def npInv {d : ℕ} (A : Matrix (Fin d) (Fin d) ℚ) :
    Except PyErr (Matrix (Fin d) (Fin d) ℚ) :=
  if detQ A = 0 then .error .singularMatrix
  else .ok (fun i j => (detQ A)⁻¹ * adjugateQ A i j)

/-- `np.unique(y)`: the distinct labels.  Only its length (`c`, the class
count) is consumed by the source; `List.dedup` has the same length as numpy's
sorted unique array. -/
def npUnique (y : List ℤ) : List ℤ := y.dedup

/-- `XC[:, np.where(y == i)[0]]` (line 174): the columns whose label equals
the loop index `i`.  The loop ranges over `0..c-1` as *label values*, exactly
as the source does. -/
def classCols {d : ℕ} (X : List (Fin d → ℚ)) (y : List ℤ) (i : ℕ) :
    List (Fin d → ℚ) :=
  ((X.zip y).filter (fun p => p.2 == (i : ℤ))).map (fun p => p.1)

/-- `np.dot(M, M.T)` for a matrix given as its list of columns: entry `(a,b)`
sums `col a * col b` over the columns. -/
def gramT {d : ℕ} (cols : List (Fin d → ℚ)) : Matrix (Fin d) (Fin d) ℚ :=
  fun a b => (cols.map (fun cvec => cvec a * cvec b)).sum

/-- `np.dot(u, v.T)` for column vectors `u`, `v`: the outer product. -/
def outerQ {d : ℕ} (u v : Fin d → ℚ) : Matrix (Fin d) (Fin d) ℚ :=
  fun a b => u a * v b

/-- Element-wise (Hadamard) matrix product: the meaning of `*` on two numpy
`ndarray`s, which is what line 180 applies to `np.linalg.inv(Sw)` and `Sb`
(both are `ndarray`s built from `np.zeros`/`np.dot`). -/
def hadamard {d : ℕ} (A B : Matrix (Fin d) (Fin d) ℚ) :
    Matrix (Fin d) (Fin d) ℚ :=
  fun i j => A i j * B i j

section LDAdefs

variable {d : ℕ}

/-- Fitted state of an `LDA` instance (`self._num_components`,
`self._eigenvalues`, `self._eigenvectors`); `LDA.__init__` has no mean. -/
structure LDAState (d : ℕ) where
  num_components : ℤ
  eigenvalues : Option (List ℚ)
  eigenvectors : Option (List (Fin d → ℚ))
  deriving DecidableEq

namespace LDA

/-- `LDA.__init__(num_components)` (lines 148–152). -/
def initState (num_components : ℤ) : LDAState d :=
  ⟨num_components, none, none⟩

/-- Lines 162–165: clamp the requested component count to `c - 1`. -/
def resolveNC (cfg : ℤ) (c : ℕ) : ℤ :=
  if cfg ≤ 0 then (c : ℤ) - 1
  else if (c : ℤ) - 1 < cfg then (c : ℤ) - 1
  else cfg

/-- The within-class scatter matrix `Sw` accumulated by the loop of lines
173–176: `Sw += (Xi - mean_class) · (Xi - mean_class).T` over classes
`i = 0..c-1`. -/
def Sw (X : List (Fin d → ℚ)) (y : List ℤ) : Matrix (Fin d) (Fin d) ℚ :=
  let c := (npUnique y).length
  ((List.range c).map (fun i =>
    let Xi := classCols X y i
    let meanClass := colMean Xi
    gramT (Xi.map (fun x => fun j => x j - meanClass j)))).sum

/-- The between-class scatter matrix `Sb` accumulated by line 177:
`Sb += Xi.shape[1] * (mean_class - mean_total) · (mean_class - mean_total).T`. -/
def Sb (X : List (Fin d → ℚ)) (y : List ℤ) : Matrix (Fin d) (Fin d) ℚ :=
  let meanTotal := colMean (asColumnMatrix X)
  let c := (npUnique y).length
  ((List.range c).map (fun i =>
    let Xi := classCols X y i
    let meanClass := colMean Xi
    (Xi.length : ℚ) •
      outerQ (fun j => meanClass j - meanTotal j) (fun j => meanClass j - meanTotal j))).sum

/-- The matrix line 180 hands to the eigensolver:
`np.linalg.inv(Sw) * Sb`.  Both operands are `ndarray`s, so `*` is the
element-wise product, not `np.dot`. -/
def eigInput (X : List (Fin d → ℚ)) (y : List ℤ) :
    Except PyErr (Matrix (Fin d) (Fin d) ℚ) :=
  (npInv (Sw X y)).map (fun SwInv => hadamard SwInv (Sb X y))

/-- `LDA.compute(X, y)` (lines 154–194).  `eig` is the opaque call
`np.linalg.eig`, returning possibly complex eigenvalues (modelled as real
and imaginary part pairs) and the eigenvector columns.  Python mutates
`self._num_components` (lines 162–165) before the inversion can raise, so on
failure the returned state carries the new `num_components` and the old
eigen fields. -/
def compute (eig : Matrix (Fin d) (Fin d) ℚ → List (ℚ × ℚ) × List (Fin d → ℚ × ℚ))
    (st : LDAState d) (X : List (Fin d → ℚ)) (y : List ℤ) :
    LDAState d × Except PyErr (List (List ℚ)) :=
  let c := (npUnique y).length
  let nc := resolveNC st.num_components c
  match eigInput X y with
  | .error e => ({ st with num_components := nc }, .error e)
  | .ok M =>
    -- line 180: eigenpairs of inv(Sw) * Sb
    let w := (eig M).1
    let v := (eig M).2
    -- lines 183–184: sort by descending real part of the eigenvalue
    let pairs := sortDescBy (fun p => p.1.1) (w.zip v)
    -- lines 186–187: truncate to num_components, keep real parts
    let evals := ((pairs.map (fun p => p.1)).take nc.toNat).map (fun z => z.1)
    let evecs := ((pairs.map (fun p => p.2)).take nc.toNat).map
      (fun col => fun i => (col i).1)
    let st' : LDAState d := ⟨nc, some evals, some evecs⟩
    -- lines 190–194: features = [project(x) for x in X]
    (st', .ok (X.map (fun x => evecs.map (fun cvec => dotQ cvec x))))

/-- `LDA.project(X) = np.dot(self._eigenvectors.T, X)` (lines 196–197), no
mean subtraction. -/
def project (st : LDAState d) (x : Fin d → ℚ) : Except PyErr (List ℚ) :=
  match st.eigenvectors with
  | none => .error .notFitted
  | some W => .ok (W.map (fun cvec => dotQ cvec x))

/-- `LDA` defines no `extract`; Python method resolution finds
`AbstractFeature.extract` (lines 8–9), which raises `NotImplementedError`
unconditionally — fitted or not. -/
def extract (_st : LDAState d) (_x : Fin d → ℚ) : Except PyErr (List ℚ) :=
  .error .notImplemented

end LDA

end LDAdefs

/-- `PCA.project` (lines 112–114) as a map on a fitted `d×k` eigenvector
matrix `W` and mean `m`: `np.dot(W.T, x - mean)`. -/
def pcaProjectMat {d k : ℕ} (W : Matrix (Fin d) (Fin k) ℚ) (m x : Fin d → ℚ) :
    Fin k → ℚ :=
  W.transpose.mulVec (x - m)

/-- `LDA.project` (lines 196–197) as a map on a fitted eigenvector matrix:
`np.dot(W.T, x)`, no mean subtraction. -/
def ldaProjectMat {d k : ℕ} (W : Matrix (Fin d) (Fin k) ℚ) (x : Fin d → ℚ) :
    Fin k → ℚ :=
  W.transpose.mulVec x

/-- Line 245: the folded Fisherfaces eigenspace
`np.dot(pca.eigenvectors, lda.eigenvectors)`. -/
def fisherFold {d p k : ℕ} (P : Matrix (Fin d) (Fin p) ℚ)
    (L : Matrix (Fin p) (Fin k) ℚ) : Matrix (Fin d) (Fin k) ℚ :=
  P * L

/-- `Fisherfaces.project` (lines 258–259): `np.dot(W.T, x)` on the folded
matrix — like LDA, without any mean subtraction. -/
def fisherProjectMat {d k : ℕ} (W : Matrix (Fin d) (Fin k) ℚ) (x : Fin d → ℚ) :
    Fin k → ℚ :=
  W.transpose.mulVec x

/-- A stand-in for numpy's SVD output on 1-dimensional data, used only in
closed counterexample and witness statements whose truth does not depend on
the decomposition's numeric content (`num_components` resolution and feature
list shape are decided before/independently of the SVD values). -/
def svdStub : List (Fin 1 → ℚ) → List (Fin 1 → ℚ) × List ℚ :=
  fun _ => ([fun _ => 1], [1])

/-- A stand-in for numpy's `eig` output, for closed statements that never
reach (or never depend on) the eigensolver. -/
def eigStub : Matrix (Fin 1) (Fin 1) ℚ → List (ℚ × ℚ) × List (Fin 1 → ℚ × ℚ) :=
  fun _ => ([(1, 0)], [fun _ => (1, 0)])

/-- `np.histogram(C, bins=2^neighbors, range=(0, 2^neighbors), normed=True)`
(lines 344–351) on integer label data lying in `[0, 2^neighbors)` — the LBP
operator's contract: per-bin counts divided by the total in-range count
(`normed` divides by `counts.sum()`).  With no in-range data the
normalisation divides zero by zero and numpy emits NaN entries; a NaN entry
is modelled as `none`. -/
def npHistogramNormed (data : List ℕ) (bins : ℕ) : List (Option ℚ) :=
  let counts := (List.range bins).map (fun v => data.count v)
  let total := counts.sum
  if total = 0 then List.replicate bins none
  else counts.map (fun (cnt : ℕ) => some ((cnt : ℚ) / (total : ℚ)))

/-- The sub-region `L[row*py:(row+1)*py, col*px:(col+1)*px]` (line 338) of a
label map given as its list of rows, flattened the way `np.histogram`
flattens its input. -/
def cellSlice (L : List (List ℕ)) (py px row col : ℕ) : List ℕ :=
  (((L.drop (row * py)).take py).map (fun r => (r.drop (col * px)).take px)).flatten

/-- The per-cell histograms of `spatially_enhanced_histogram` (lines
329–341) in row-major order: cell sizes are the floor divisions
`py = lbp_height // grid_rows`, `px = lbp_width // grid_cols`; remainder
rows/columns fall outside every cell. -/
def cellHists (L : List (List ℕ)) (gridRows gridCols B : ℕ) :
    List (List (Option ℚ)) :=
  let py := L.length / gridRows
  let px := (L.head?.getD []).length / gridCols
  ((List.range gridRows).map (fun row =>
    (List.range gridCols).map (fun col =>
      npHistogramNormed (cellSlice L py px row col) (2 ^ B)))).flatten

/-- `SpatialHistogram.spatially_enhanced_histogram` (lines 319–342), taking
the label map `L` the opaque LBP operator produced and the operator's
`neighbors` count `B`: concatenates the per-cell histograms
(`E.extend(H)`). -/
def spatiallyEnhancedHistogram (L : List (List ℕ)) (gridRows gridCols B : ℕ) :
    List (Option ℚ) :=
  (cellHists L gridRows gridCols B).flatten

/-- Sum of a list of possibly-NaN entries: `none` (NaN) propagates, exactly
as NaN propagates through float addition. -/
def optSum : List (Option ℚ) → Option ℚ
  | [] => some 0
  | none :: _ => none
  | some a :: t => Option.map (fun b => a + b) (optSum t)

section Fisherdefs

variable {d : ℕ}

/-- Fitted state of a `Fisherfaces` instance (`self._num_components`,
`self._eigenvectors`, `self._eigenvalues`, lines 219–223). -/
structure FisherfacesState (d : ℕ) where
  num_components : ℤ
  eigenvectors : Option (List (Fin d → ℚ))
  eigenvalues : Option (List ℚ)
  deriving DecidableEq

namespace Fisherfaces

/-- `Fisherfaces.__init__(num_components)` (lines 219–223). -/
def initState (num_components : ℤ) : FisherfacesState d :=
  ⟨num_components, none, none⟩

/-- `Fisherfaces.project(X) = np.dot(self._eigenvectors.T, X)` (lines
258–259); on an unfitted instance `None.T` raises (modelled `notFitted`). -/
def project (st : FisherfacesState d) (x : Fin d → ℚ) : Except PyErr (List ℚ) :=
  match st.eigenvectors with
  | none => .error .notFitted
  | some W => .ok (W.map (fun cvec => dotQ cvec x))

/-- `Fisherfaces.extract(X)` (lines 254–256): reshape and `project`. -/
def extract (st : FisherfacesState d) (x : Fin d → ℚ) : Except PyErr (List ℚ) :=
  project st x

end Fisherfaces

end Fisherdefs

/-- A 4×4 label map with values in `[0, 2^3)` — the spec's own scenario for a
`grid=(2,2)`, `neighbors=3` spatial histogram. -/
def L4c7 : List (List ℕ) :=
  [[0, 1, 2, 3], [4, 5, 6, 7], [0, 1, 2, 3], [4, 5, 6, 7]]

/-- Six two-dimensional samples in three classes (labels `0,0,1,1,2,2`):
class means `(1,0)`, `(0,3)`, `(5,6)`, global mean `(2,3)`, within-class
scatter `[[4,2],[2,4]]` (invertible), between-class scatter
`[[28,24],[24,36]]`. -/
def Xc1 : List (Fin 2 → ℚ) := [![0, 0], ![2, 0], ![0, 2], ![0, 4], ![4, 5], ![6, 7]]

/-- Labels for `Xc1`: three classes of two samples each. -/
def yc1 : List ℤ := [0, 0, 1, 1, 2, 2]

/-- Two one-dimensional samples, one per class: both classes are singletons,
so every within-class deviation is zero, `Sw = [[0]]` is singular, and
`np.linalg.inv(Sw)` raises `LinAlgError`. -/
def Xsing : List (Fin 1 → ℚ) := [fun _ => 0, fun _ => 1]

/-- Labels for `Xsing`: two singleton classes. -/
def ysing : List ℤ := [0, 1]

/-- Claim C3: a freshly constructed `PCA` (every fitted field `None`) fails on
`extract` for every sample and every configured component count: line 113's
`X - self._mean` hits `None`, the unfitted (`NotFitted`) failure. -/
theorem c3_unfitted_extract_fails (d : ℕ) (cfg : ℤ) (x : Fin d → ℚ) :
    PCA.extract (PCA.initState cfg) x = .error .notFitted ∧
      Fisherfaces.extract (Fisherfaces.initState cfg) x = .error .notFitted :=
  ⟨rfl, rfl⟩

/-- The clamp of lines 162–165 never exceeds `c - 1`. -/
theorem LDA.resolveNC_le (cfg : ℤ) (c : ℕ) : LDA.resolveNC cfg c ≤ (c : ℤ) - 1 := by
  unfold LDA.resolveNC
  split
  · exact le_refl _
  · split
    · exact le_refl _
    · omega

/-- Claim C8: whatever component count an `LDA` instance requests (larger than
`c-1`, zero, or negative), after `compute` on data whose labels have `c`
distinct values the stored `num_components` is at most `c - 1`.  The bound
holds for the state `compute` returns on every path (it is established by the
clamp of lines 162–165 before anything can fail). -/
theorem c8_lda_num_components_le (d : ℕ)
    (eig : Matrix (Fin d) (Fin d) ℚ → List (ℚ × ℚ) × List (Fin d → ℚ × ℚ))
    (st : LDAState d) (X : List (Fin d → ℚ)) (y : List ℤ) :
    ((LDA.compute eig st X y).1).num_components ≤ ((npUnique y).length : ℤ) - 1 := by
  unfold LDA.compute
  cases h : LDA.eigInput X y <;> simp [h] <;> exact LDA.resolveNC_le _ _

/-- Claim C9 (code bug): on every `LDA` instance — fitted or not — `extract`
raises `NotImplementedError` from the `AbstractFeature` stub, because `LDA`
never overrides `extract`; it does not return the projection
`eigenvectors^T · sample` that `LDA.project` would compute. -/
theorem c9_lda_extract_not_implemented (d : ℕ) (st : LDAState d) (x : Fin d → ℚ) :
    LDA.extract st x = .error .notImplemented ∧
      ∀ r : List ℚ, LDA.extract st x ≠ .ok r :=
  ⟨rfl, fun _ h => Except.noConfusion h⟩

/-- Claim C2, counterexample: with fitted matrices `P = [[1]]`, `L = [[1]]`
and fitted PCA mean `3` (the state an actual fit produces on the 1-dimensional
training set `[0, 2, 3, 7]` with labels `[0, 0, 1, 1]`), the folded
Fisherfaces projection of the sample `0` is `0`, while PCA-project followed by
LDA-project gives `-3`: `Fisherfaces.project` never subtracts the PCA mean, so
the two differ by a constant offset far beyond floating tolerance. -/
theorem c2_counterexample :
    fisherProjectMat (fisherFold (1 : Matrix (Fin 1) (Fin 1) ℚ) 1) ![0] ≠
      ldaProjectMat (1 : Matrix (Fin 1) (Fin 1) ℚ)
        (pcaProjectMat (1 : Matrix (Fin 1) (Fin 1) ℚ) ![3] ![0]) := by
  intro h
  have h0 := congrFun h 0
  simp [fisherProjectMat, fisherFold, ldaProjectMat, pcaProjectMat,
    Matrix.mulVec, Matrix.dotProduct, Fin.sum_univ_one] at h0

/-- Claim C2, amended: the folded projection equals the sequential
PCA-then-LDA projection plus the constant offset `L^T · (P^T · mean)` — the
fold drops PCA's mean subtraction, so the two agree exactly if and only if
that offset vanishes (in particular on mean-centered samples). -/
theorem c2_fold_is_sequential_plus_mean_offset (d p k : ℕ)
    (P : Matrix (Fin d) (Fin p) ℚ) (L : Matrix (Fin p) (Fin k) ℚ)
    (m x : Fin d → ℚ) :
    fisherProjectMat (fisherFold P L) x =
      ldaProjectMat L (pcaProjectMat P m x) + ldaProjectMat L (P.transpose.mulVec m) := by
  unfold fisherProjectMat fisherFold ldaProjectMat pcaProjectMat
  rw [Matrix.transpose_mul, ← Matrix.mulVec_mulVec, ← Matrix.mulVec_add,
    ← Matrix.mulVec_add, sub_add_cancel]

/-- Claim C4, counterexample: `PCA.compute` on two samples but a single label
does not fail with `InvalidArgument` — labels are never validated (nor used at
all): it succeeds and returns one feature vector per sample, in input order. -/
theorem c4_counterexample :
    ([(fun _ => 3 : Fin 1 → ℚ), fun _ => 5].length ≠ [(0 : ℤ)].length) ∧
      (PCA.compute svdStub (PCA.initState 0)
          [(fun _ => 3 : Fin 1 → ℚ), fun _ => 5] [(0 : ℤ)]).2 =
        .ok [[-1], [1]] := by
  refine ⟨by decide, ?_⟩
  simp [PCA.compute, PCA.initState, asColumnMatrix, colMean, svdStub, sortDescBy,
    insertDescBy, dotQ, Fin.sum_univ_one]
  norm_num

/-- Claim C4, amended: `compute` performs no input validation.  On any
nonempty sample list and any label list whatsoever (matching length or not —
PCA ignores `y` entirely), `PCA.compute` succeeds and returns exactly the
projection of each input sample under the freshly fitted state, in input
order; in particular one feature vector per sample.  (The empty-samples case
rests on `asColumnMatrix` from the absent `facerec.util` module and is not
asserted.) -/
theorem c4_compute_returns_feature_per_sample (d : ℕ)
    (svd : List (Fin d → ℚ) → List (Fin d → ℚ) × List ℚ)
    (st : PCAState d) (X : List (Fin d → ℚ)) (y : List ℤ) (_hX : X ≠ []) :
    ∃ W m, (PCA.compute svd st X y).1.eigenvectors = some W ∧
      (PCA.compute svd st X y).1.mean = some m ∧
      (PCA.compute svd st X y).2 =
        .ok (X.map (fun x => W.map (fun cvec => dotQ cvec (fun i => x i - m i)))) :=
  ⟨_, _, rfl, rfl, rfl⟩

/-- Closed witness for `c4_compute_returns_feature_per_sample`. -/
theorem c4_witness :
    ([(fun _ => 3 : Fin 1 → ℚ), fun _ => 5] ≠ []) ∧
      ∃ W m,
        (PCA.compute svdStub (PCA.initState 0)
            [(fun _ => 3 : Fin 1 → ℚ), fun _ => 5] [0]).1.eigenvectors = some W ∧
        (PCA.compute svdStub (PCA.initState 0)
            [(fun _ => 3 : Fin 1 → ℚ), fun _ => 5] [0]).1.mean = some m ∧
        (PCA.compute svdStub (PCA.initState 0)
            [(fun _ => 3 : Fin 1 → ℚ), fun _ => 5] [0]).2 =
          .ok ([(fun _ => 3 : Fin 1 → ℚ), fun _ => 5].map
            (fun x => W.map (fun cvec => dotQ cvec (fun i => x i - m i)))) :=
  ⟨by simp, c4_compute_returns_feature_per_sample 1 svdStub (PCA.initState 0)
    [(fun _ => 3 : Fin 1 → ℚ), fun _ => 5] [0] (by simp)⟩

/-- Claim C6, counterexample: PCA on five samples of flattened dimensionality
`d = 1` with configured `num_components = 4` stores `num_components = 4`,
which exceeds `d - 1 = 0`: the clamp of lines 78–79 uses the sample count
`n`, not the dimensionality `d`. -/
theorem c6_counterexample :
    ((PCA.compute svdStub (PCA.initState 4)
        [(fun _ => 0 : Fin 1 → ℚ), fun _ => 1, fun _ => 2, fun _ => 3, fun _ => 4]
        [0, 1, 0, 1, 0]).1).num_components = 4 ∧
      ¬ ((4 : ℤ) ≤ (1 : ℤ) - 1) :=
  ⟨rfl, by decide⟩

/-- Claim C6, amended: after `PCA.compute` on `n` samples the stored
`num_components` is at most `n - 1` (sample count, not dimensionality).  The
bound holds for the state returned on every input. -/
theorem c6_pca_num_components_le (d : ℕ)
    (svd : List (Fin d → ℚ) → List (Fin d → ℚ) × List ℚ)
    (st : PCAState d) (X : List (Fin d → ℚ)) (y : List ℤ) (_hX : 1 ≤ X.length) :
    ((PCA.compute svd st X y).1).num_components ≤ (X.length : ℤ) - 1 := by
  unfold PCA.compute
  dsimp only
  split
  · exact le_refl _
  · next h =>
    push_neg at h
    exact h.2

/-- Closed witness for `c6_pca_num_components_le`. -/
theorem c6_witness :
    1 ≤ [(fun _ => 0 : Fin 1 → ℚ), fun _ => 1, fun _ => 2, fun _ => 3,
        fun _ => 4].length ∧
      ((PCA.compute svdStub (PCA.initState 4)
          [(fun _ => 0 : Fin 1 → ℚ), fun _ => 1, fun _ => 2, fun _ => 3, fun _ => 4]
          [0, 1, 0, 1, 0]).1).num_components ≤
        (([(fun _ => 0 : Fin 1 → ℚ), fun _ => 1, fun _ => 2, fun _ => 3,
          fun _ => 4].length : ℕ) : ℤ) - 1 :=
  ⟨by decide, c6_pca_num_components_le 1 svdStub (PCA.initState 4) _ _ (by decide)⟩

/-- Claim C10, counterexample: `compute` overwrites `self._num_components`
with the resolved value, so a second `compute` call resolves from the
*previous call's* result, not from the constructor configuration.  First fit:
5 samples, configured `0`, resolves to `4`.  Re-fitting the same instance on
10 samples keeps `4`; a freshly constructed instance with the same
configuration resolves to `9` on the same data — different fitted state. -/
theorem c10_counterexample :
    ((PCA.compute svdStub
        ((PCA.compute svdStub (PCA.initState 0)
          [(fun _ => 0 : Fin 1 → ℚ), fun _ => 1, fun _ => 2, fun _ => 3, fun _ => 4]
          [0, 1, 0, 1, 0]).1)
        [(fun _ => 0 : Fin 1 → ℚ), fun _ => 1, fun _ => 2, fun _ => 3, fun _ => 4,
          fun _ => 5, fun _ => 6, fun _ => 7, fun _ => 8, fun _ => 9]
        [0, 1, 0, 1, 0, 1, 0, 1, 0, 1]).1).num_components = 4 ∧
      ((PCA.compute svdStub (PCA.initState 0)
        [(fun _ => 0 : Fin 1 → ℚ), fun _ => 1, fun _ => 2, fun _ => 3, fun _ => 4,
          fun _ => 5, fun _ => 6, fun _ => 7, fun _ => 8, fun _ => 9]
        [0, 1, 0, 1, 0, 1, 0, 1, 0, 1]).1).num_components = 9 ∧
      (PCA.compute svdStub
        ((PCA.compute svdStub (PCA.initState 0)
          [(fun _ => 0 : Fin 1 → ℚ), fun _ => 1, fun _ => 2, fun _ => 3, fun _ => 4]
          [0, 1, 0, 1, 0]).1)
        [(fun _ => 0 : Fin 1 → ℚ), fun _ => 1, fun _ => 2, fun _ => 3, fun _ => 4,
          fun _ => 5, fun _ => 6, fun _ => 7, fun _ => 8, fun _ => 9]
        [0, 1, 0, 1, 0, 1, 0, 1, 0, 1]).1 ≠
      (PCA.compute svdStub (PCA.initState 0)
        [(fun _ => 0 : Fin 1 → ℚ), fun _ => 1, fun _ => 2, fun _ => 3, fun _ => 4,
          fun _ => 5, fun _ => 6, fun _ => 7, fun _ => 8, fun _ => 9]
        [0, 1, 0, 1, 0, 1, 0, 1, 0, 1]).1 := by
  refine ⟨rfl, rfl, fun h => ?_⟩
  exact absurd (congrArg PCAState.num_components h) (by decide)

/-- On `Xsing`/`ysing` the within-class scatter matrix is singular (it is the
zero matrix): shared evaluation helper. -/
theorem detQ_Sw_Xsing : detQ (LDA.Sw Xsing ysing) = 0 := by
  have hc : npUnique ysing = [0, 1] := by decide
  have h0 : classCols Xsing ysing 0 = [fun _ => 0] := by decide
  have h1 : classCols Xsing ysing 1 = [fun _ => 1] := by decide
  norm_num [detQ, Fin.sum_univ_one, LDA.Sw, hc, h0, h1, gramT, colMean,
    List.range_succ]

/-- Claim C1 (code bug): line 180 passes `np.linalg.inv(Sw) * Sb` to
`np.linalg.eig`, but `Sw` and `Sb` are `ndarray`s, so `*` is the element-wise
product, not the matrix product `Sw^-1 · Sb` the spec describes.  On the
concrete training set `Xc1`/`yc1` the matrix handed to the eigensolver
(`LDA.eigInput`) differs from the true matrix product entrywise and even in
trace, so the resulting eigenvalue multiset — and hence the sorted, truncated,
stored eigenpairs — cannot coincide with those of `Sw^-1 · Sb`. -/
theorem c1_eigensolver_gets_elementwise_product :
    LDA.Sw Xc1 yc1 = !![4, 2; 2, 4] ∧
      LDA.Sb Xc1 yc1 = !![28, 24; 24, 36] ∧
      npInv !![(4 : ℚ), 2; 2, 4] = .ok !![1/3, -1/6; -1/6, 1/3] ∧
      LDA.eigInput Xc1 yc1 = .ok !![28/3, -4; -4, 12] ∧
      (!![28/3, -4; -4, 12] : Matrix (Fin 2) (Fin 2) ℚ) ≠
        !![(1 : ℚ)/3, -1/6; -1/6, 1/3] * !![28, 24; 24, 36] ∧
      Matrix.trace (!![(28 : ℚ)/3, -4; -4, 12] : Matrix (Fin 2) (Fin 2) ℚ) ≠
        Matrix.trace (!![(1 : ℚ)/3, -1/6; -1/6, 1/3] * !![28, 24; 24, 36]) := by
  have hc : npUnique yc1 = [0, 1, 2] := by decide
  have h0 : classCols Xc1 yc1 0 = [![0, 0], ![2, 0]] := by decide
  have h1 : classCols Xc1 yc1 1 = [![0, 2], ![0, 4]] := by decide
  have h2 : classCols Xc1 yc1 2 = [![4, 5], ![6, 7]] := by decide
  have hSw : LDA.Sw Xc1 yc1 = !![4, 2; 2, 4] := by
    ext i j
    fin_cases i <;> fin_cases j <;>
      norm_num [LDA.Sw, hc, h0, h1, h2, gramT, colMean, List.range_succ]
  have hm : colMean (asColumnMatrix Xc1) = ![2, 3] := by
    funext i
    fin_cases i <;> norm_num [colMean, asColumnMatrix, Xc1]
  have hm0 : colMean [(![0, 0] : Fin 2 → ℚ), ![2, 0]] = ![1, 0] := by
    funext i
    fin_cases i <;> norm_num [colMean]
  have hm1 : colMean [(![0, 2] : Fin 2 → ℚ), ![0, 4]] = ![0, 3] := by
    funext i
    fin_cases i <;> norm_num [colMean]
  have hm2 : colMean [(![4, 5] : Fin 2 → ℚ), ![6, 7]] = ![5, 6] := by
    funext i
    fin_cases i <;> norm_num [colMean]
  have hSb : LDA.Sb Xc1 yc1 = !![28, 24; 24, 36] := by
    ext i j
    fin_cases i <;> fin_cases j <;>
      norm_num [LDA.Sb, hc, h0, h1, h2, hm, hm0, hm1, hm2, outerQ, List.range_succ]
  have hdet : detQ (!![(4 : ℚ), 2; 2, 4]) = 12 := by
    norm_num [detQ, Fin.sum_univ_succ, Matrix.submatrix, Fin.succAbove]
  have hInv : npInv !![(4 : ℚ), 2; 2, 4] = .ok !![1/3, -1/6; -1/6, 1/3] := by
    rw [npInv, if_neg (by rw [hdet]; norm_num)]
    refine congrArg _ ?_
    funext i j
    fin_cases i <;> fin_cases j <;>
      norm_num [hdet, adjugateQ, detQ, Fin.sum_univ_succ, Matrix.submatrix,
        Fin.succAbove]
  have hHad : hadamard !![(1 : ℚ)/3, -1/6; -1/6, 1/3] !![28, 24; 24, 36] =
      !![28/3, -4; -4, 12] := by
    ext i j
    fin_cases i <;> fin_cases j <;> norm_num [hadamard]
  have hEig : LDA.eigInput Xc1 yc1 = .ok !![28/3, -4; -4, 12] := by
    rw [LDA.eigInput, hSw, hSb, hInv]
    simpa [Except.map] using hHad
  have hMul : !![(1 : ℚ)/3, -1/6; -1/6, 1/3] * !![28, 24; 24, 36] =
      !![16/3, 2; 10/3, 8] := by
    rw [Matrix.mul_fin_two]
    norm_num
  refine ⟨hSw, hSb, hInv, hEig, ?_, ?_⟩
  · rw [hMul]
    intro h
    have h01 := congrFun (congrFun h 0) 1
    norm_num at h01
  · rw [hMul, Matrix.trace_fin_two_of, Matrix.trace_fin_two_of]
    norm_num

/-- Claim C5, counterexample: an `LDA` instance with previously fitted state
`num_components = 2`, eigenvalues `[7]`, eigenvectors `[[1]]` is re-fitted on
`Xsing`/`ysing`, whose singleton classes make `Sw` singular.  `compute`
raises at `np.linalg.inv` — but only after lines 162–165 already stored the
newly clamped `num_components = 1`: the prior fitted state is *not* left
exactly as it was. -/
theorem c5_counterexample :
    (LDA.compute eigStub ⟨2, some [7], some [fun _ => 1]⟩ Xsing ysing).2 =
        .error .singularMatrix ∧
      (LDA.compute eigStub ⟨2, some [7], some [fun _ => 1]⟩ Xsing ysing).1 =
        ⟨1, some [7], some [fun _ => 1]⟩ ∧
      (⟨1, some [7], some [fun _ => 1]⟩ : LDAState 1) ≠
        ⟨2, some [7], some [fun _ => 1]⟩ := by
  have hEig : LDA.eigInput Xsing ysing = .error .singularMatrix := by
    simp [LDA.eigInput, npInv, detQ_Sw_Xsing, Except.map]
  have hc : npUnique ysing = [0, 1] := by decide
  refine ⟨?_, ?_, ?_⟩
  · simp [LDA.compute, hEig]
  · simp [LDA.compute, hEig, hc, LDA.resolveNC]
  · simp [LDAState.mk.injEq]

/-- Claim C5, amended: `compute` is not atomic on failure.  Whenever the
within-class scatter matrix is singular, `LDA.compute` raises `LinAlgError`
from `np.linalg.inv` and leaves the previously fitted eigenvalues and
eigenvectors untouched, but `num_components` already holds the newly resolved
(clamped) value, not its prior one. -/
theorem c5_failed_compute_mutates_num_components (d : ℕ)
    (eig : Matrix (Fin d) (Fin d) ℚ → List (ℚ × ℚ) × List (Fin d → ℚ × ℚ))
    (st : LDAState d) (X : List (Fin d → ℚ)) (y : List ℤ)
    (hdet : detQ (LDA.Sw X y) = 0) :
    LDA.compute eig st X y =
      ({ st with num_components := LDA.resolveNC st.num_components (npUnique y).length },
        .error .singularMatrix) := by
  have hEig : LDA.eigInput X y = .error .singularMatrix := by
    simp [LDA.eigInput, npInv, hdet, Except.map]
  simp [LDA.compute, hEig]

/-- Closed witness for `c5_failed_compute_mutates_num_components`. -/
theorem c5_witness :
    detQ (LDA.Sw Xsing ysing) = 0 ∧
      LDA.compute eigStub ⟨2, some [7], some [fun _ => 1]⟩ Xsing ysing =
        ({ (⟨2, some [7], some [fun _ => 1]⟩ : LDAState 1) with
            num_components := LDA.resolveNC 2 (npUnique ysing).length },
          .error .singularMatrix) :=
  ⟨detQ_Sw_Xsing,
    c5_failed_compute_mutates_num_components 1 eigStub _ Xsing ysing detQ_Sw_Xsing⟩

/-- Claim C10, amended: the fitted state a `compute` call produces depends
only on the `num_components` field at call time and on the call's inputs —
all other previously fitted state (mean, eigenvectors, eigenvalues, energy)
is overwritten without being read.  It does *not* depend only on the
constructor configuration, because `compute` overwrites `num_components`
with the resolved value. -/
theorem c10_compute_depends_only_on_num_components (d : ℕ)
    (svd : List (Fin d → ℚ) → List (Fin d → ℚ) × List ℚ)
    (st₁ st₂ : PCAState d) (X : List (Fin d → ℚ)) (y : List ℤ)
    (h : st₁.num_components = st₂.num_components) :
    PCA.compute svd st₁ X y = PCA.compute svd st₂ X y := by
  unfold PCA.compute
  rw [h]

/-- Closed witness for `c10_compute_depends_only_on_num_components`: two
states sharing `num_components = 2` but differing in every other field yield
identical `compute` results. -/
theorem c10_witness :
    ((⟨2, 5, some (fun _ => 7), none, some [3]⟩ : PCAState 1).num_components =
      (⟨2, 0, none, some [fun _ => 1], none⟩ : PCAState 1).num_components) ∧
      PCA.compute svdStub ⟨2, 5, some (fun _ => 7), none, some [3]⟩
          [(fun _ => 3 : Fin 1 → ℚ), fun _ => 5] [0, 1] =
        PCA.compute svdStub ⟨2, 0, none, some [fun _ => 1], none⟩
          [(fun _ => 3 : Fin 1 → ℚ), fun _ => 5] [0, 1] :=
  ⟨rfl, c10_compute_depends_only_on_num_components 1 svdStub _ _ _ _ rfl⟩

/-- A histogram always has exactly `bins` entries, NaN or not. -/
theorem npHistogramNormed_length (data : List ℕ) (bins : ℕ) :
    (npHistogramNormed data bins).length = bins := by
  rw [npHistogramNormed]
  split
  · simp
  · rw [List.length_map, List.length_map, List.length_range]

/-- Summing a mapped list whose values are all the same constant. -/
theorem sum_map_eq_const {α : Type} (l : List α) (f : α → ℕ) (c : ℕ)
    (h : ∀ a ∈ l, f a = c) : (l.map f).sum = l.length * c := by
  induction l with
  | nil => simp
  | cons a t ih =>
    simp [h a (by simp), ih (fun x hx => h x (by simp [hx]))]
    ring

/-- `optSum` over defined entries is the plain sum. -/
theorem optSum_map_some (f : ℕ → ℚ) (l : List ℕ) :
    optSum (l.map (fun c => some (f c))) = some ((l.map f).sum) := by
  induction l with
  | nil => rfl
  | cons a t ih => simp [optSum, ih]

/-- Division distributes over a list sum. -/
theorem sum_map_div (l : List ℚ) (t : ℚ) :
    (l.map (fun x => x / t)).sum = l.sum / t := by
  induction l with
  | nil => simp
  | cons a r ih => simp [ih, add_div]

/-- Pointwise sums of mapped lists split. -/
theorem sum_map_add {α : Type} (l : List α) (f g : α → ℕ) :
    (l.map (fun v => f v + g v)).sum = (l.map f).sum + (l.map g).sum := by
  induction l with
  | nil => simp
  | cons a r ih =>
    simp [ih]
    omega

/-- The indicator of a value below `bins` is counted exactly once across the
bin range. -/
theorem sum_range_indicator (a bins : ℕ) (ha : a < bins) :
    ((List.range bins).map (fun v => if (a == v) = true then 1 else 0)).sum = 1 := by
  simp only [beq_iff_eq]
  induction bins with
  | zero => omega
  | succ n ih =>
    rw [List.range_succ, List.map_append, List.sum_append]
    by_cases h : a = n
    · subst h
      have h0 : ((List.range a).map (fun v => if a = v then 1 else 0)).sum = 0 := by
        apply List.sum_eq_zero
        intro x hx
        rw [List.mem_map] at hx
        obtain ⟨v, hv, rfl⟩ := hx
        rw [List.mem_range] at hv
        simp [Nat.ne_of_gt hv]
      simp [h0]
    · have ha' : a < n := by omega
      simp [ih ha', h]

/-- In-range data is fully accounted for by the per-bin counts: the counts of
`np.histogram` sum to the number of data points. -/
theorem count_range_sum (data : List ℕ) (bins : ℕ) (hv : ∀ v ∈ data, v < bins) :
    ((List.range bins).map (fun v => data.count v)).sum = data.length := by
  induction data with
  | nil => simp
  | cons a t ih =>
    have ha : a < bins := hv a (by simp)
    have iht := ih (fun v hvm => hv v (by simp [hvm]))
    calc ((List.range bins).map (fun v => (a :: t).count v)).sum
        = ((List.range bins).map
            (fun v => t.count v + if (a == v) = true then 1 else 0)).sum := by
          simp only [List.count_cons]
      _ = ((List.range bins).map (fun v => t.count v)).sum +
            ((List.range bins).map (fun v => if (a == v) = true then 1 else 0)).sum :=
          sum_map_add _ _ _
      _ = t.length + 1 := by rw [iht, sum_range_indicator a bins ha]
      _ = (a :: t).length := by simp

/-- On nonempty in-range data the normalised histogram sums to exactly 1. -/
theorem optSum_npHistogramNormed (data : List ℕ) (bins : ℕ)
    (hne : data ≠ []) (hv : ∀ v ∈ data, v < bins) :
    optSum (npHistogramNormed data bins) = some 1 := by
  have htot : ((List.range bins).map (fun v => data.count v)).sum = data.length :=
    count_range_sum data bins hv
  have hpos : data.length ≠ 0 := by
    cases data with
    | nil => exact absurd rfl hne
    | cons a t => simp
  rw [npHistogramNormed]
  simp only [htot, if_neg hpos]
  rw [optSum_map_some (fun cnt => (cnt : ℚ) / (data.length : ℚ))]
  congr 1
  rw [show (fun cnt : ℕ => (cnt : ℚ) / (data.length : ℚ)) =
      ((fun x : ℚ => x / (data.length : ℚ)) ∘ (fun cnt : ℕ => (cnt : ℚ))) from rfl,
    ← List.map_map, sum_map_div]
  rw [show List.map (fun cnt : ℕ => (cnt : ℚ)) = List.map (Nat.cast (R := ℚ)) from rfl]
  rw [← Nat.cast_list_sum, htot]
  exact div_self (by exact_mod_cast hpos)

/-- Extracting the `i`-th block of a flattened list of equal-length blocks. -/
theorem flatten_drop_take {α : Type} (B : ℕ) (blocks : List (List α)) :
    ∀ i : ℕ, (∀ b ∈ blocks, b.length = B) → ∀ h : i < blocks.length,
      (blocks.flatten.drop (i * B)).take B = blocks.get ⟨i, h⟩ := by
  induction blocks with
  | nil =>
    intro i _ h
    exact absurd h (by simp)
  | cons b t ih =>
    intro i hlen h
    have hb : b.length = B := hlen b (by simp)
    cases i with
    | zero =>
      simp only [List.flatten_cons, Nat.zero_mul, List.drop_zero, List.get]
      rw [List.take_append_eq_append_take, hb, Nat.sub_self, List.take_zero,
        List.append_nil, ← hb, List.take_length]
    | succ i =>
      simp only [List.flatten_cons, List.get]
      rw [List.drop_append_eq_append_drop]
      have h2 : b.drop ((i + 1) * B) = [] := by
        apply List.drop_eq_nil_of_le
        rw [hb, Nat.succ_mul]
        omega
      have h1 : (i + 1) * B - b.length = i * B := by
        rw [hb, Nat.succ_mul]
        omega
      rw [h2, List.nil_append, h1]
      exact ih i (fun x hx => hlen x (by simp [hx])) (by simpa using h)

/-- The grid produces exactly `grid_rows * grid_cols` cells. -/
theorem cellHists_length (L : List (List ℕ)) (gr gc B : ℕ) :
    (cellHists L gr gc B).length = gr * gc := by
  simp only [cellHists, List.length_flatten, List.map_map]
  rw [sum_map_eq_const _ _ gc (by intro a _; simp [Function.comp]), List.length_range]

/-- Every member of `cellHists` is the histogram of some in-range grid
cell. -/
theorem cellHists_mem (L : List (List ℕ)) (gr gc B : ℕ) {h : List (Option ℚ)}
    (hmem : h ∈ cellHists L gr gc B) :
    ∃ row col, row < gr ∧ col < gc ∧
      h = npHistogramNormed
        (cellSlice L (L.length / gr) ((L.head?.getD []).length / gc) row col)
        (2 ^ B) := by
  simp only [cellHists, List.mem_flatten, List.mem_map, List.mem_range] at hmem
  obtain ⟨l, ⟨row, hrow, rfl⟩, hl⟩ := hmem
  rw [List.mem_map] at hl
  obtain ⟨col, hcol, rfl⟩ := hl
  rw [List.mem_range] at hcol
  exact ⟨row, col, hrow, hcol, rfl⟩

/-- Every label inside a grid cell comes from the label map. -/
theorem cellSlice_mem_lt (L : List (List ℕ)) (py px row col bound : ℕ)
    (hvals : ∀ r ∈ L, ∀ v ∈ r, v < bound) :
    ∀ v ∈ cellSlice L py px row col, v < bound := by
  intro v hv
  rw [cellSlice, List.mem_flatten] at hv
  obtain ⟨l, hl, hvl⟩ := hv
  rw [List.mem_map] at hl
  obtain ⟨r, hr, rfl⟩ := hl
  exact hvals r (List.drop_subset _ _ (List.take_subset _ _ hr)) v
    (List.drop_subset _ _ (List.take_subset _ _ hvl))

/-- When the grid does not exceed the label-map dimensions, every grid cell
contains at least one pixel. -/
theorem cellSlice_ne_nil (L : List (List ℕ)) (gr gc row col : ℕ)
    (hrect : ∀ r ∈ L, r.length = (L.head?.getD []).length)
    (hgr : 1 ≤ gr) (hgc : 1 ≤ gc)
    (hh : gr ≤ L.length) (hw : gc ≤ (L.head?.getD []).length)
    (hrow : row < gr) (hcol : col < gc) :
    cellSlice L (L.length / gr) ((L.head?.getD []).length / gc) row col ≠ [] := by
  set py := L.length / gr with hpy_def
  set px := (L.head?.getD []).length / gc with hpx_def
  have hpy : 1 ≤ py := (Nat.one_le_div_iff (by omega)).2 hh
  have hpx : 1 ≤ px := (Nat.one_le_div_iff (by omega)).2 hw
  have hgrpy : gr * py ≤ L.length := by
    rw [hpy_def, mul_comm]
    exact Nat.div_mul_le_self L.length gr
  have hrowpy : row * py + py ≤ gr * py := by
    have h1 : row + 1 ≤ gr := hrow
    calc row * py + py = (row + 1) * py := by ring
      _ ≤ gr * py := Nat.mul_le_mul_right py h1
  have hrows_len : ((L.drop (row * py)).take py).length = py := by
    rw [List.length_take, List.length_drop]
    omega
  have hrows_ne : (L.drop (row * py)).take py ≠ [] := by
    intro hcon
    rw [hcon] at hrows_len
    simp at hrows_len
    omega
  obtain ⟨r, hr⟩ := List.exists_mem_of_ne_nil _ hrows_ne
  have hrL : r ∈ L := List.drop_subset _ _ (List.take_subset _ _ hr)
  have hrlen : r.length = (L.head?.getD []).length := hrect r hrL
  have hgcpx : gc * px ≤ r.length := by
    rw [hrlen, hpx_def, mul_comm]
    exact Nat.div_mul_le_self _ gc
  have hcolpx : col * px + px ≤ gc * px := by
    have h1 : col + 1 ≤ gc := hcol
    calc col * px + px = (col + 1) * px := by ring
      _ ≤ gc * px := Nat.mul_le_mul_right px h1
  have hcslice : ((r.drop (col * px)).take px).length = px := by
    rw [List.length_take, List.length_drop]
    omega
  intro hnil
  rw [cellSlice, List.flatten_eq_nil_iff] at hnil
  have hempty := hnil ((r.drop (col * px)).take px) (List.mem_map_of_mem _ hr)
  rw [hempty] at hcslice
  simp at hcslice
  omega

/-- Claim C7, counterexample: a 1×1 label map under a 2×2 grid has
`py = px = 0`, so every cell slice is empty; `np.histogram(..., normed=True)`
then divides the zero counts by a zero total, producing NaN entries (`none`),
not the all-zero vector.  The output length is still
`grid_rows · grid_cols · 2^neighbors`, but the first cell segment neither
sums to 1 nor is all-zero. -/
theorem c7_counterexample :
    (spatiallyEnhancedHistogram [[0]] 2 2 1).length = 2 * 2 * 2 ^ 1 ∧
      optSum (((spatiallyEnhancedHistogram [[0]] 2 2 1).drop (0 * 2 ^ 1)).take (2 ^ 1)) ≠
        some 1 ∧
      ((spatiallyEnhancedHistogram [[0]] 2 2 1).drop (0 * 2 ^ 1)).take (2 ^ 1) ≠
        List.replicate (2 ^ 1) (some (0 : ℚ)) := by
  refine ⟨by decide, by decide, by decide⟩

/-- Claim C7, amended: for every label map (rectangular, with values in
`[0, 2^neighbors)` as the LBP operator guarantees) the output length is
exactly `grid_rows · grid_cols · 2^neighbors`; and whenever the grid does not
exceed the label-map dimensions — so that no cell is empty — every
consecutive `2^neighbors`-length cell segment sums to exactly 1.  (An empty
cell yields NaN entries, not zeros, as the counterexample shows.) -/
theorem c7_length_and_cell_sums (L : List (List ℕ)) (gr gc B : ℕ)
    (hrect : ∀ r ∈ L, r.length = (L.head?.getD []).length)
    (hvals : ∀ r ∈ L, ∀ v ∈ r, v < 2 ^ B)
    (hgr : 1 ≤ gr) (hgc : 1 ≤ gc)
    (hh : gr ≤ L.length) (hw : gc ≤ (L.head?.getD []).length) :
    (spatiallyEnhancedHistogram L gr gc B).length = gr * gc * 2 ^ B ∧
      ∀ i, i < gr * gc →
        optSum (((spatiallyEnhancedHistogram L gr gc B).drop (i * 2 ^ B)).take (2 ^ B)) =
          some 1 := by
  have hlens : ∀ b ∈ cellHists L gr gc B, b.length = 2 ^ B := by
    intro b hb
    obtain ⟨row, col, _, _, rfl⟩ := cellHists_mem L gr gc B hb
    exact npHistogramNormed_length _ _
  constructor
  · rw [spatiallyEnhancedHistogram, List.length_flatten,
      sum_map_eq_const _ _ (2 ^ B) hlens, cellHists_length]
  · intro i hi
    have hib : i < (cellHists L gr gc B).length := by
      rw [cellHists_length]
      exact hi
    rw [spatiallyEnhancedHistogram, flatten_drop_take (2 ^ B) _ i hlens hib]
    have hmem := List.get_mem (cellHists L gr gc B) i hib
    obtain ⟨row, col, hrow, hcol, heq⟩ := cellHists_mem L gr gc B hmem
    rw [heq]
    exact optSum_npHistogramNormed _ _
      (cellSlice_ne_nil L gr gc row col hrect hgr hgc hh hw hrow hcol)
      (cellSlice_mem_lt L _ _ row col _ hvals)

/-- Closed witness for `c7_length_and_cell_sums`: the spec's own scenario, a
4×4 label map with `grid = (2,2)` and `neighbors = 3`. -/
theorem c7_witness :
    (∀ r ∈ L4c7, r.length = (L4c7.head?.getD []).length) ∧
      (∀ r ∈ L4c7, ∀ v ∈ r, v < 2 ^ 3) ∧
      2 ≤ L4c7.length ∧ 2 ≤ (L4c7.head?.getD []).length ∧
      ((spatiallyEnhancedHistogram L4c7 2 2 3).length = 2 * 2 * 2 ^ 3 ∧
        ∀ i, i < 2 * 2 →
          optSum (((spatiallyEnhancedHistogram L4c7 2 2 3).drop (i * 2 ^ 3)).take (2 ^ 3)) =
            some 1) :=
  ⟨by decide, by decide, by decide, by decide,
    c7_length_and_cell_sums L4c7 2 2 3 (by decide) (by decide) (by decide)
      (by decide) (by decide) (by decide)⟩
